import Mathlib

/-!
# Paginated order retrieval of the OpenSea client (`order.go`)

A shallow embedding of `GetOrdersWithContext`, `GetOffersWithContext` and
`GetListingWithContext`, together with the parts of `net/url` and
`go-querystring` they call.  Network access (`getPath`) and JSON decoding
(`json.Unmarshal`) are parameters; every call to `getPath` is recorded in a
trace of request paths.
-/

namespace Opensea

/-! ## Machine integers and primitive types -/

/-- Conversion to Go `int32`: the value is reduced modulo `2^32` into
`[-2^31, 2^31)`. -/
def toInt32 (x : Int) : Int := (x + 2147483648) % 4294967296 - 2147483648

/-- Go `error` values. -/
abbrev Error := String

/-- Response bodies, Go `[]byte`. -/
abbrev Body := List UInt8

/-! ## `net/url`: `url.Values` and query escaping -/

/-- Upper-case hexadecimal digit, as in `"0123456789ABCDEF"[n]`. -/
def upperhex (n : Nat) : Char :=
  if n < 10 then Char.ofNat (48 + n) else Char.ofNat (55 + n)

/-- Function `shouldEscape(c, encodeQueryComponent)` of `net/url`. -/
def shouldEscape (c : Nat) : Bool :=
  if (97 ≤ c ∧ c ≤ 122) ∨ (65 ≤ c ∧ c ≤ 90) ∨ (48 ≤ c ∧ c ≤ 57) then false
  else if c = 45 ∨ c = 95 ∨ c = 46 ∨ c = 126 then false
  else true

/-- Escaping of one byte in `url.QueryEscape`. -/
def escapeByte (c : Nat) : List Char :=
  if shouldEscape c then
    if c = 32 then ['+'] else ['%', upperhex (c / 16), upperhex (c % 16)]
  else [Char.ofNat c]

/-- Function `url.QueryEscape`, byte by byte over the UTF-8 encoding of the string. -/
def QueryEscape (s : String) : String :=
  String.mk ((s.data.flatMap String.utf8EncodeChar).flatMap (fun b => escapeByte b.toNat))

/-- Type `url.Values` (`map[string][]string`) as an association list with one
entry per key. -/
abbrev Values := List (String × List String)

namespace Values

/-- Method `Values.Get`: first value of the key, or `""`. -/
def Get : Values → String → String
  | [], _ => ""
  | (k, vs) :: rest, key => if k = key then vs.headD "" else Get rest key

/-- Method `Values.Set`: replaces the values of the key. -/
def Set : Values → String → String → Values
  | [], key, value => [(key, [value])]
  | (k, vs) :: rest, key, value =>
    if k = key then (key, [value]) :: rest else (k, vs) :: Set rest key value

/-- Method `Values.Add`: appends to the values of the key. -/
def Add : Values → String → String → Values
  | [], key, value => [(key, [value])]
  | (k, vs) :: rest, key, value =>
    if k = key then (k, vs ++ [value]) :: rest else (k, vs) :: Add rest key value

/-- Go string order `a < b`: lexicographic on the UTF-8 bytes. -/
def bytesLt : List Nat → List Nat → Bool
  | _, [] => false
  | [], _ :: _ => true
  | a :: as, b :: bs => if a < b then true else if b < a then false else bytesLt as bs

/-- UTF-8 bytes of a string. -/
def utf8 (s : String) : List Nat :=
  (s.data.flatMap String.utf8EncodeChar).map (fun b => b.toNat)

/-- Insertion of one entry into a key-sorted list (`slices.Sort(keys)`). -/
def insertSorted (e : String × List String) : Values → Values
  | [] => [e]
  | x :: rest =>
    if bytesLt (utf8 e.1) (utf8 x.1) then e :: x :: rest else x :: insertSorted e rest

/-- Entries in increasing key order. -/
def sorted (v : Values) : Values := v.foldr insertSorted []

/-- Method `Values.Encode`: `key=value` pairs, escaped, sorted by key, joined by `&`. -/
def Encode (v : Values) : String :=
  String.intercalate "&"
    ((sorted v).flatMap (fun e => e.2.map (fun x => QueryEscape e.1 ++ "=" ++ QueryEscape x)))

end Values

/-! ## `go-querystring`: `query.Values`

`GetOrdersWithContext` serialises its options with the external package
`github.com/google/go-querystring/query`.  The package reads the struct tag
key `url`; a field without one is encoded under its Go field name and is
never omitted.  The embedding covers the field kinds `GetOrderOpts` has
(`string`, `[]string`, `int32`). -/

/-- Value of a struct field, by kind. -/
inductive FieldValue where
  | str (s : String)
  | strs (l : List String)
  | int (i : Int)
  deriving DecidableEq, Repr

/-- One `reflect.StructField` with its value; `Tag` lists the key/value pairs
of the struct tag. -/
structure StructField where
  Name : String
  Tag : List (String × String)
  Value : FieldValue
  deriving DecidableEq, Repr

/-- Method `StructTag.Get`: the value for a key, `""` when the key is absent. -/
def tagGet : List (String × String) → String → String
  | [], _ => ""
  | (k, v) :: rest, key => if k = key then v else tagGet rest key

/-- Function `strings.Split(s, ",")`. -/
def splitComma : List Char → List String
  | [] => [""]
  | c :: cs =>
    if c = ',' then "" :: splitComma cs
    else match splitComma cs with
      | [] => [String.mk [c]]
      | h :: t => String.mk (c :: h.data) :: t

/-- Function `parseTag`: the name and the options of a `url` tag. -/
def parseTag (tag : String) : String × List String :=
  let s := splitComma tag.data
  (s.headD "", s.tail)

/-- Function `isEmptyValue` of `go-querystring`. -/
def isEmptyValue : FieldValue → Bool
  | .str s => s.length = 0
  | .strs l => l.length = 0
  | .int i => i = 0

/-- Function `valueString`: `fmt.Sprint` of the value. -/
def valueString : FieldValue → String
  | .str s => s
  | .strs l => "[" ++ String.intercalate " " l ++ "]"
  | .int i => toString i

/-- Adds the elements of a slice field one by one. -/
def addEach (opts : List String) (name : String) : Values → Nat → List String → Values
  | values, _, [] => values
  | values, i, x :: xs =>
    let k := if opts.contains "numbered" then name ++ toString i else name
    addEach opts name (Values.Add values k x) (i + 1) xs

/-- Function `reflectValue` of `go-querystring` over the fields of a flat struct. -/
def reflectValue : Values → List StructField → Values
  | values, [] => values
  | values, sf :: rest =>
    let tag := tagGet sf.Tag "url"
    if tag = "-" then reflectValue values rest
    else
      let name := if (parseTag tag).1 = "" then sf.Name else (parseTag tag).1
      let opts := (parseTag tag).2
      if opts.contains "omitempty" && isEmptyValue sf.Value then reflectValue values rest
      else match sf.Value with
        | .strs l =>
          if l.length = 0 then reflectValue values rest
          else
            let del :=
              if opts.contains "comma" then ","
              else if opts.contains "space" then " "
              else if opts.contains "semicolon" then ";"
              else if opts.contains "brackets" then ""
              else tagGet sf.Tag "del"
            let name :=
              if opts.contains "comma" || opts.contains "space" || opts.contains "semicolon"
              then name
              else if opts.contains "brackets" then name ++ "[]" else name
            if del ≠ "" then
              reflectValue (Values.Add values name (String.intercalate del l)) rest
            else reflectValue (addEach opts name values 0 l) rest
        | v => reflectValue (Values.Add values name (valueString v)) rest

/-! ## Data model of `order.go` -/

/-- Record `Asset`. -/
structure Asset where
  ID : String
  Address : String
  deriving DecidableEq, Repr

/-- Record `Order`.  The fields of the types `TimeNano`, `Address`, `Account`,
`Number` and `Bytes`, which other files of the package declare, are left out;
the enumerations `FeeMethod`, `Side`, `SaleKind` and `HowToCall` are `uint8`.
No function below inspects an order. -/
structure Order where
  ID : Int
  Asset : Asset
  ExpirationTime : Int
  ListingTime : Int
  FeeMethod : Nat
  Side : Nat
  SaleKind : Nat
  HowToCall : Nat
  Quantity : String
  V : Option Nat
  ApprovedOnChain : Bool
  Cancelled : Bool
  Finalized : Bool
  MarkedInvalid : Bool
  deriving DecidableEq, Repr

/-- Options `GetOrderOpts`; `Limit` and `Offset` are `int32`. -/
structure GetOrderOpts where
  AssetContractAddress : String := ""
  ListedAfter : String := ""
  ListedBefore : String := ""
  OrderBy : String := ""
  OrderDirection : String := ""
  TokenId : String := ""
  TokenIds : List String := []
  Limit : Int := 0
  Offset : Int := 0
  deriving DecidableEq, Repr

/-- Fields of `GetOrderOpts` in declaration order, each with its struct tag
as written in the source: only the key `json` is present. -/
def GetOrderOpts.fields (opt : GetOrderOpts) : List StructField :=
  [ ⟨"AssetContractAddress", [("json", "asset_contract_address,omitempty")],
      .str opt.AssetContractAddress⟩,
    ⟨"ListedAfter", [("json", "listed_after,omitempty")], .str opt.ListedAfter⟩,
    ⟨"ListedBefore", [("json", "listed_before,omitempty")], .str opt.ListedBefore⟩,
    ⟨"OrderBy", [("json", "order_by,omitempty")], .str opt.OrderBy⟩,
    ⟨"OrderDirection", [("json", "order_direction,omitempty")], .str opt.OrderDirection⟩,
    ⟨"TokenId", [("json", "token_id,omitempty")], .str opt.TokenId⟩,
    ⟨"TokenIds", [("json", "token_ids,omitempty")], .strs opt.TokenIds⟩,
    ⟨"Limit", [("json", "limit,omitempty")], .int opt.Limit⟩,
    ⟨"Offset", [("json", "offset,omitempty")], .int opt.Offset⟩ ]

/-- Call `query.Values(opt)` for a `GetOrderOpts`; the error result of the library
(non-struct argument, failing custom encoder) cannot arise for this type. -/
def queryValues (opt : GetOrderOpts) : Except Error Values :=
  .ok (reflectValue [] opt.fields)

/-- Decoded page envelope `struct { Count int64; Orders []*Order }`; a `nil`
element of `Orders` is `none`. -/
structure Envelope where
  Count : Int
  Orders : List (Option Order)
  deriving DecidableEq, Repr

/-- The page fetcher `o.getPath(ctx, path)`: the response to the `n`-th call
(counted from 0) issued with the given path. -/
abbrev Fetcher := Nat → String → Except Error Body

/-- Result pair `(orders, err)` of `GetOrdersWithContext`; `none` is `nil`. -/
structure OrdersResult where
  orders : Option (List (Option Order))
  err : Option Error
  deriving DecidableEq, Repr

/-- Path of the request issued with query values `q` at the given offset. -/
def ordersPath (q : Values) (offset : Int) : String :=
  "/wyvern/v1/orders?" ++ Values.Encode (Values.Set q "offset" (toString offset))

/-- The `for true` loop of `GetOrdersWithContext`.  `n` counts the calls made
so far.  The result is the list of paths passed to `getPath` and the returned
pair, or `none` when the fuel ends before the loop returns. -/
def ordersLoop (getPath : Fetcher) (unmarshal : Body → Except Error Envelope) (limit : Int) :
    Nat → Values → Nat → Int → List (Option Order) → List String × Option OrdersResult
  | 0, _, _, _, _ => ([], none)
  | fuel + 1, q, n, offset, orders =>
    let q := Values.Set q "offset" (toString offset)
    let path := "/wyvern/v1/orders?" ++ Values.Encode q
    match getPath n path with
    | .error err => ([path], some ⟨none, some err⟩)
    | .ok b =>
      match unmarshal b with
      | .error err => ([path], some ⟨none, some err⟩)
      | .ok out =>
        let orders := orders ++ out.Orders
        if toInt32 out.Orders.length < limit then ([path], some ⟨some orders, none⟩)
        else
          let r := ordersLoop getPath unmarshal limit fuel q (n + 1)
            (toInt32 (offset + limit)) orders
          (path :: r.1, r.2)

/-- Method `Opensea.GetOrdersWithContext`: the list of paths passed to
`getPath` and the returned pair, `none` when the fuel ends before the loop
returns. -/
def GetOrdersWithContext (getPath : Fetcher) (unmarshal : Body → Except Error Envelope)
    (opt : GetOrderOpts) (fuel : Nat) : List String × Option OrdersResult :=
  let opt := if opt.Limit = 0 then { opt with Limit := 100 } else opt
  let offset : Int := 0
  match queryValues opt with
  | .error err => ([], some ⟨none, some err⟩)
  | .ok q => ordersLoop getPath unmarshal opt.Limit fuel q 0 offset []

/-- Options `GetOfferOpts`; `Limit` is a Go `int`. -/
structure GetOfferOpts where
  AssetContractAddress : String := ""
  TokenId : String := ""
  Limit : Int := 0
  deriving DecidableEq, Repr

/-- Options `GetListingOpts`; `Limit` is a Go `int`. -/
structure GetListingOpts where
  AssetContractAddress : String := ""
  TokenId : String := ""
  Limit : Int := 0
  deriving DecidableEq, Repr

/-- A field of Go type `interface{}` after JSON decoding: the JSON text of the
value, `none` for `null`. -/
abbrev Any := Option String

/-- Record `FeeRecipient`. -/
structure FeeRecipient where
  User : Int
  ProfileImgURL : String
  Address : String
  Config : String
  deriving DecidableEq, Repr

/-- Record `PaymentTokenContract`. -/
structure PaymentTokenContract where
  ID : Int
  Symbol : String
  Address : String
  ImageURL : String
  Name : Any
  Decimals : Int
  EthPrice : String
  UsdPrice : Any
  deriving DecidableEq, Repr

/-- Record `Metadata`. -/
structure Metadata where
  Asset : Asset
  Schema : String
  deriving DecidableEq, Repr

/-- Record `Maker`. -/
structure Maker where
  User : Int
  ProfileImgURL : String
  Address : String
  Config : String
  deriving DecidableEq, Repr

/-- Record `Taker`. -/
structure Taker where
  User : Int
  ProfileImgURL : String
  Address : String
  Config : String
  deriving DecidableEq, Repr

/-- Record `Offers`, with string-encoded numeric fields. -/
structure Offers where
  CreatedDate : String
  ClosingDate : Any
  ClosingExtendable : Bool
  ExpirationTime : Int
  ListingTime : Int
  OrderHash : String
  Metadata : Metadata
  Exchange : String
  Maker : Maker
  Taker : Taker
  CurrentPrice : String
  CurrentBounty : String
  BountyMultiple : String
  MakerRelayerFee : String
  TakerRelayerFee : String
  MakerProtocolFee : String
  TakerProtocolFee : String
  MakerReferrerFee : String
  FeeRecipient : FeeRecipient
  FeeMethod : Int
  Side : Int
  SaleKind : Int
  Target : String
  HowToCall : Int
  Calldata : String
  ReplacementPattern : String
  StaticTarget : String
  StaticExtradata : String
  PaymentToken : String
  PaymentTokenContract : PaymentTokenContract
  BasePrice : String
  Extra : String
  Quantity : String
  Salt : String
  V : Int
  R : String
  S : String
  ApprovedOnChain : Bool
  Cancelled : Bool
  Finalized : Bool
  MarkedInvalid : Bool
  PrefixedHash : String
  deriving Repr

/-- Record `Listings`, with string-encoded numeric fields. -/
structure Listings where
  CreatedDate : String
  ClosingDate : String
  ClosingExtendable : Bool
  ExpirationTime : Int
  ListingTime : Int
  OrderHash : String
  Metadata : Metadata
  Exchange : String
  Maker : Maker
  Taker : Taker
  CurrentPrice : String
  CurrentBounty : String
  BountyMultiple : String
  MakerRelayerFee : String
  TakerRelayerFee : String
  MakerProtocolFee : String
  TakerProtocolFee : String
  MakerReferrerFee : String
  FeeRecipient : FeeRecipient
  FeeMethod : Int
  Side : Int
  SaleKind : Int
  Target : String
  HowToCall : Int
  Calldata : String
  ReplacementPattern : String
  StaticTarget : String
  StaticExtradata : String
  PaymentToken : String
  PaymentTokenContract : PaymentTokenContract
  BasePrice : String
  Extra : String
  Quantity : String
  Salt : String
  V : Any
  R : Any
  S : Any
  ApprovedOnChain : Bool
  Cancelled : Bool
  Finalized : Bool
  MarkedInvalid : Bool
  PrefixedHash : String
  deriving Repr

/-- Envelope `GetOfferResponse`. -/
structure GetOfferResponse where
  Offers : List Offers
  deriving Repr

/-- Envelope `GetListingResponse`. -/
structure GetListingResponse where
  Listings : List Listings
  deriving Repr

/-- Method `Opensea.GetOffersWithContext`: the paths passed to `getPath` and the
returned pair `(*GetOfferResponse, error)`.  The query values `q` are built
and then not used. -/
def GetOffersWithContext (getPath : Fetcher) (unmarshal : Body → Except Error GetOfferResponse)
    (opt : GetOfferOpts) : List String × (Option GetOfferResponse × Option Error) :=
  let opt := if opt.Limit = 0 then { opt with Limit := 50 } else opt
  let _q := Values.Set [] "limit" (toString opt.Limit)
  let path := "/api/v1/asset/" ++ opt.AssetContractAddress ++ "/" ++ opt.TokenId ++ "/offers"
  match getPath 0 path with
  | .error err => ([path], (none, some err))
  | .ok b =>
    match unmarshal b with
    | .error err => ([path], (none, some err))
    | .ok offers => ([path], (some offers, none))

/-- Method `Opensea.GetListingWithContext`: the paths passed to `getPath` and the
returned pair `(*GetListingResponse, error)`.  The query values `q` are built
and then not used. -/
def GetListingWithContext (getPath : Fetcher)
    (unmarshal : Body → Except Error GetListingResponse)
    (opt : GetListingOpts) : List String × (Option GetListingResponse × Option Error) :=
  let opt := if opt.Limit = 0 then { opt with Limit := 50 } else opt
  let _q := Values.Set [] "limit" (toString opt.Limit)
  let path := "/api/v1/asset/" ++ opt.AssetContractAddress ++ "/" ++ opt.TokenId ++ "/listings"
  match getPath 0 path with
  | .error err => ([path], (none, some err))
  | .ok b =>
    match unmarshal b with
    | .error err => ([path], (none, some err))
    | .ok listings => ([path], (some listings, none))

/-! ## Specification-side definitions -/

/-- The decoded response to the `n`-th call: a transport error, a decode
error, or the page envelope. -/
def fetchPage (getPath : Fetcher) (unmarshal : Body → Except Error Envelope)
    (n : Nat) (path : String) : Except Error Envelope :=
  match getPath n path with
  | .error err => .error err
  | .ok b => unmarshal b

/-- The options after the default page size has been filled in. -/
def withDefaultLimit (opt : GetOrderOpts) : GetOrderOpts :=
  if opt.Limit = 0 then { opt with Limit := 100 } else opt

/-- Path of the request `GetOrdersWithContext` builds for `opt` at an offset. -/
def requestPath (opt : GetOrderOpts) (offset : Int) : String :=
  ordersPath (reflectValue [] (withDefaultLimit opt).fields) offset

/-- The pages decoded from the responses to a list of requests, the first of
which is call number `n`; `none` when one of the requests failed. -/
def fetchedPages (getPath : Fetcher) (unmarshal : Body → Except Error Envelope) :
    Nat → List String → Option (List (List (Option Order)))
  | _, [] => some []
  | n, path :: rest =>
    match fetchPage getPath unmarshal n path with
    | .error _ => none
    | .ok out => (fetchedPages getPath unmarshal (n + 1) rest).map (fun ps => out.Orders :: ps)

/-- The orders of the page returned to call number `i` when that call is made
at offset `int32(i * limit)`; empty when the call fails. -/
def pageAt (getPath : Fetcher) (unmarshal : Body → Except Error Envelope) (q : Values)
    (limit : Int) (i : Nat) : List (Option Order) :=
  match fetchPage getPath unmarshal i (ordersPath q (toInt32 ((i : Int) * limit))) with
  | .error _ => []
  | .ok out => out.Orders

/-- Concatenation `p n ++ p (n+1) ++ ... ++ p (n+j-1)`. -/
def concatPages (p : Nat → List (Option Order)) : Nat → Nat → List (Option Order)
  | _, 0 => []
  | n, j + 1 => p n ++ concatPages p (n + 1) j

/-- The paths of `j` consecutive requests, the first being call number `n`,
each at offset `int32(i * limit)` for its call number `i`. -/
def pathsFrom (q : Values) (limit : Int) : Nat → Nat → List String
  | _, 0 => []
  | n, j + 1 => ordersPath q (toInt32 ((n : Int) * limit)) :: pathsFrom q limit (n + 1) j

/-! ## Sample fetchers and decoder -/

/-- An order with the given identifier and zero values elsewhere. -/
def orderWithID (id : Int) : Order :=
  { ID := id, Asset := ⟨"", ""⟩, ExpirationTime := 0, ListingTime := 0, FeeMethod := 0,
    Side := 0, SaleKind := 0, HowToCall := 0, Quantity := "", V := none,
    ApprovedOnChain := false, Cancelled := false, Finalized := false, MarkedInvalid := false }

/-- A sample decoder: the first byte of the body is the count field, every
further byte is the identifier of one order; an empty body does not decode. -/
def decodeIDs : Body → Except Error Envelope
  | [] => .error "unexpected end of JSON input"
  | c :: ids => .ok ⟨c.toNat, ids.map (fun x => some (orderWithID x.toNat))⟩

/-- A sample fetcher answering call `i` with the `i`-th body of a list, and
with an empty page once the list is used up. -/
def bodiesFetcher (bodies : List Body) : Fetcher :=
  fun i _ => .ok (bodies.getD i [0])

/-- The page `decodeIDs` reads from the `i`-th body. -/
def bodiesPage (bodies : List Body) (i : Nat) : List (Option Order) :=
  (bodies.getD i [0]).tail.map (fun x => some (orderWithID x.toNat))

/-- Pages of 100, 100 and 37 orders. -/
def bodies237 : List Body :=
  [237 :: List.replicate 100 1, 237 :: List.replicate 100 2, 237 :: List.replicate 37 3]

/-- Pages of 100, 100 and 0 orders. -/
def bodies200 : List Body :=
  [200 :: List.replicate 100 1, 200 :: List.replicate 100 2, [200]]

/-- A sample fetcher whose second call fails in transport. -/
def secondFails : Fetcher :=
  fun i _ => if i = 1 then .error "timeout" else .ok [3, 1, 2]

/-- Pages of 2, 2 and 0 orders. -/
def bodiesExact : List Body := [[4, 1, 2], [4, 3, 4], [4]]

/-- A first page of 2 orders, then empty pages. -/
def bodiesOver : List Body := [[2, 7, 8], [2]]

/-- The pages of `bodiesExact` under other count fields. -/
def bodiesRecount : List Body := [[9, 1, 2], [0, 3, 4], [77]]

/-- A stateless sample fetcher: the page depends on the requested path alone;
2 orders at offset 0, 2 orders at offset 2, none elsewhere. -/
def pathFetcher : Fetcher :=
  fun _ path =>
    if path = requestPath { Limit := 2 } 0 then .ok [5, 1, 2]
    else if path = requestPath { Limit := 2 } 2 then .ok [5, 3, 4]
    else .ok [5]

/-- The pages `decodeIDs` reads from the responses of `pathFetcher` to the
requests at offsets 0, 2, 4, ... -/
def pathPage (i : Nat) : List (Option Order) :=
  if i = 0 then [some (orderWithID 1), some (orderWithID 2)]
  else if i = 1 then [some (orderWithID 3), some (orderWithID 4)]
  else []

/-- A sample fetcher whose every page holds 2 orders. -/
def alwaysFull : Fetcher := fun _ _ => .ok [2, 1, 2]

/-- A body listing `2^31` orders. -/
def hugeBody : Body := List.replicate 2147483648 0

/-- A sample fetcher whose first page holds `2^31` orders and whose later
pages are empty. -/
def hugeFetcher : Fetcher :=
  fun i _ => if i = 0 then .ok (0 :: hugeBody) else .ok [0]

/-- The pages `decodeIDs` reads from the responses of `hugeFetcher`. -/
def hugePage (i : Nat) : List (Option Order) :=
  if i = 0 then hugeBody.map (fun x => some (orderWithID x.toNat)) else []

/-! ## Arithmetic and `url.Values` lemmas -/

theorem toInt32_of_range {x : Int} (h1 : -2147483648 ≤ x) (h2 : x < 2147483648) :
    toInt32 x = x := by
  unfold toInt32; omega

theorem toInt32_add_left (a b : Int) : toInt32 (toInt32 a + b) = toInt32 (a + b) := by
  unfold toInt32; omega

theorem toInt32_succ_mul (n : Nat) (limit : Int) :
    toInt32 (toInt32 ((n : Int) * limit) + limit) = toInt32 (((n + 1 : Nat) : Int) * limit) := by
  rw [toInt32_add_left]
  congr 1
  push_cast
  ring

theorem Values.Set_Set (q : Values) (k a b : String) :
    Values.Set (Values.Set q k a) k b = Values.Set q k b := by
  induction q with
  | nil => simp [Values.Set]
  | cons e rest ih =>
    obtain ⟨k', vs⟩ := e
    by_cases h : k' = k
    · simp [Values.Set, h]
    · simp [Values.Set, h, ih]

theorem Values.Get_Set (q : Values) (k v : String) :
    Values.Get (Values.Set q k v) k = v := by
  induction q with
  | nil => simp [Values.Set, Values.Get]
  | cons e rest ih =>
    obtain ⟨k', vs⟩ := e
    by_cases h : k' = k
    · simp [Values.Set, Values.Get, h]
    · simp [Values.Set, Values.Get, h, ih]

theorem ordersPath_Set (q : Values) (x : String) (offset : Int) :
    ordersPath (Values.Set q "offset" x) offset = ordersPath q offset := by
  simp [ordersPath, Values.Set_Set]

/-! ## One iteration of the loop -/

theorem ordersLoop_Set (getPath : Fetcher) (unmarshal : Body → Except Error Envelope)
    (limit : Int) (fuel : Nat) (q : Values) (x : String) (n : Nat) (offset : Int)
    (orders : List (Option Order)) :
    ordersLoop getPath unmarshal limit fuel (Values.Set q "offset" x) n offset orders
      = ordersLoop getPath unmarshal limit fuel q n offset orders := by
  cases fuel with
  | zero => rfl
  | succ fuel => simp only [ordersLoop, Values.Set_Set]

theorem ordersLoop_error (getPath : Fetcher) (unmarshal : Body → Except Error Envelope)
    (limit : Int) (fuel : Nat) (q : Values) (n : Nat) (offset : Int)
    (orders : List (Option Order)) (err : Error)
    (h : fetchPage getPath unmarshal n (ordersPath q offset) = .error err) :
    ordersLoop getPath unmarshal limit (fuel + 1) q n offset orders
      = ([ordersPath q offset], some ⟨none, some err⟩) := by
  simp only [fetchPage, ordersPath] at h
  simp only [ordersLoop, ordersPath]
  generalize getPath n _ = r at h
  cases r with
  | error e => cases h; rfl
  | ok b =>
    have h' : unmarshal b = .error err := h
    simp only [h']

theorem ordersLoop_short (getPath : Fetcher) (unmarshal : Body → Except Error Envelope)
    (limit : Int) (fuel : Nat) (q : Values) (n : Nat) (offset : Int)
    (orders : List (Option Order)) (out : Envelope)
    (h : fetchPage getPath unmarshal n (ordersPath q offset) = .ok out)
    (hs : toInt32 out.Orders.length < limit) :
    ordersLoop getPath unmarshal limit (fuel + 1) q n offset orders
      = ([ordersPath q offset], some ⟨some (orders ++ out.Orders), none⟩) := by
  simp only [fetchPage, ordersPath] at h
  simp only [ordersLoop, ordersPath]
  generalize getPath n _ = r at h
  cases r with
  | error e => cases h
  | ok b =>
    have h' : unmarshal b = .ok out := h
    simp only [h', hs, if_true]

theorem ordersLoop_full (getPath : Fetcher) (unmarshal : Body → Except Error Envelope)
    (limit : Int) (fuel : Nat) (q : Values) (n : Nat) (offset : Int)
    (orders : List (Option Order)) (out : Envelope)
    (h : fetchPage getPath unmarshal n (ordersPath q offset) = .ok out)
    (hs : ¬ toInt32 out.Orders.length < limit) :
    ordersLoop getPath unmarshal limit (fuel + 1) q n offset orders
      = (ordersPath q offset ::
          (ordersLoop getPath unmarshal limit fuel q (n + 1) (toInt32 (offset + limit))
            (orders ++ out.Orders)).1,
         (ordersLoop getPath unmarshal limit fuel q (n + 1) (toInt32 (offset + limit))
            (orders ++ out.Orders)).2) := by
  simp only [fetchPage, ordersPath] at h
  simp only [ordersLoop, ordersPath]
  generalize getPath n _ = r at h
  cases r with
  | error e => cases h
  | ok b =>
    have h' : unmarshal b = .ok out := h
    simp only [h', hs, if_false, ordersLoop_Set]

theorem GetOrdersWithContext_eq (getPath : Fetcher) (unmarshal : Body → Except Error Envelope)
    (opt : GetOrderOpts) (fuel : Nat) :
    GetOrdersWithContext getPath unmarshal opt fuel
      = ordersLoop getPath unmarshal (withDefaultLimit opt).Limit fuel
          (reflectValue [] (withDefaultLimit opt).fields) 0 0 [] := by
  simp only [GetOrdersWithContext, queryValues, withDefaultLimit]

/-! ## Loop lemmas -/

theorem pathsFrom_eq_map (q : Values) (limit : Int) (j : Nat) :
    ∀ n, pathsFrom q limit n j
      = (List.range' n j).map (fun (i : Nat) => ordersPath q (toInt32 ((i : Int) * limit))) := by
  induction j with
  | zero => intro n; rfl
  | succ j ih => intro n; simp [pathsFrom, List.range'_succ, ih]

theorem pathsFrom_length (q : Values) (limit : Int) (j : Nat) :
    ∀ n, (pathsFrom q limit n j).length = j := by
  induction j with
  | zero => intro n; rfl
  | succ j ih => intro n; simp only [pathsFrom, List.length_cons, ih]

theorem concatPages_congr (p p' : Nat → List (Option Order)) (j : Nat) :
    ∀ n, (∀ i, i < j → p (n + i) = p' (n + i)) → concatPages p n j = concatPages p' n j := by
  induction j with
  | zero => intro n _; rfl
  | succ j ih =>
    intro n h
    have h0 := h 0 (Nat.succ_pos j)
    simp only [Nat.add_zero] at h0
    simp only [concatPages, h0]
    congr 1
    apply ih
    intro i hi
    have := h (i + 1) (Nat.succ_lt_succ hi)
    rwa [show n + (i + 1) = n + 1 + i by omega] at this

theorem concatPages_eq_flatMap (p : Nat → List (Option Order)) (j : Nat) :
    ∀ n, concatPages p n j = (List.range' n j).flatMap p := by
  induction j with
  | zero => intro n; rfl
  | succ j ih => intro n; simp [concatPages, List.range'_succ, ih]

/-- While the pages are not short the loop keeps going: `j` full pages from
call number `n` on lead to the state of call number `n + j`. -/
theorem ordersLoop_full_pages (getPath : Fetcher) (unmarshal : Body → Except Error Envelope)
    (limit : Int) (q : Values) (fuel j : Nat) :
    ∀ (n : Nat) (orders : List (Option Order)),
      (∀ i, i < j → ∃ out,
        fetchPage getPath unmarshal (n + i)
            (ordersPath q (toInt32 (((n + i : Nat) : Int) * limit))) = .ok out
          ∧ ¬ toInt32 out.Orders.length < limit) →
      ordersLoop getPath unmarshal limit (j + fuel) q n (toInt32 ((n : Int) * limit)) orders
        = (pathsFrom q limit n j ++
            (ordersLoop getPath unmarshal limit fuel q (n + j)
              (toInt32 (((n + j : Nat) : Int) * limit))
              (orders ++ concatPages (pageAt getPath unmarshal q limit) n j)).1,
           (ordersLoop getPath unmarshal limit fuel q (n + j)
              (toInt32 (((n + j : Nat) : Int) * limit))
              (orders ++ concatPages (pageAt getPath unmarshal q limit) n j)).2) := by
  induction j with
  | zero =>
    intro n orders _
    simp [pathsFrom, concatPages]
  | succ j ih =>
    intro n orders h
    obtain ⟨out, hout, hfull⟩ := h 0 (Nat.succ_pos j)
    simp only [Nat.add_zero] at hout
    have hpage : pageAt getPath unmarshal q limit n = out.Orders := by
      simp only [pageAt, hout]
    have hshift : ∀ i, i < j → ∃ out,
        fetchPage getPath unmarshal (n + 1 + i)
            (ordersPath q (toInt32 (((n + 1 + i : Nat) : Int) * limit))) = .ok out
          ∧ ¬ toInt32 out.Orders.length < limit := by
      intro i hi
      have := h (i + 1) (Nat.succ_lt_succ hi)
      rwa [show n + (i + 1) = n + 1 + i by omega] at this
    rw [show j + 1 + fuel = (j + fuel) + 1 by omega,
      ordersLoop_full getPath unmarshal limit (j + fuel) q n _ orders out hout hfull,
      toInt32_succ_mul, ih (n + 1) (orders ++ out.Orders) hshift]
    simp only [pathsFrom, concatPages, hpage, List.cons_append, List.append_assoc,
      show n + 1 + j = n + (j + 1) by omega]

/-- A successful return carries the concatenation of the pages fetched. -/
theorem ordersLoop_concat (getPath : Fetcher) (unmarshal : Body → Except Error Envelope)
    (limit : Int) (fuel : Nat) :
    ∀ (q : Values) (n : Nat) (offset : Int) (orders : List (Option Order))
      (trace : List String) (os : List (Option Order)),
      ordersLoop getPath unmarshal limit fuel q n offset orders
        = (trace, some ⟨some os, none⟩) →
      ∃ pages, fetchedPages getPath unmarshal n trace = some pages
        ∧ os = orders ++ pages.flatten := by
  induction fuel with
  | zero =>
    intro q n offset orders trace os h
    simp [ordersLoop] at h
  | succ fuel ih =>
    intro q n offset orders trace os h
    cases hp : fetchPage getPath unmarshal n (ordersPath q offset) with
    | error err =>
      rw [ordersLoop_error getPath unmarshal limit fuel q n offset orders err hp] at h
      simp at h
    | ok out =>
      by_cases hs : toInt32 out.Orders.length < limit
      · rw [ordersLoop_short getPath unmarshal limit fuel q n offset orders out hp hs] at h
        simp only [Prod.mk.injEq, Option.some.injEq, OrdersResult.mk.injEq, and_true] at h
        obtain ⟨ht, ho⟩ := h
        subst ht
        subst ho
        exact ⟨[out.Orders], by simp [fetchedPages, hp], by simp⟩
      · rw [ordersLoop_full getPath unmarshal limit fuel q n offset orders out hp hs] at h
        simp only [Prod.mk.injEq] at h
        obtain ⟨ht, ho⟩ := h
        obtain ⟨pages, hpages, hos⟩ := ih q (n + 1) (toInt32 (offset + limit))
          (orders ++ out.Orders) _ os (Prod.ext rfl ho)
        subst ht
        exact ⟨out.Orders :: pages, by simp [fetchedPages, hp, hpages], by simp [hos]⟩

/-- Every return of the loop is `(orders, nil)` or `(nil, err)`. -/
theorem ordersLoop_result (getPath : Fetcher) (unmarshal : Body → Except Error Envelope)
    (limit : Int) (fuel : Nat) :
    ∀ (q : Values) (n : Nat) (offset : Int) (orders : List (Option Order)) (r : OrdersResult),
      (ordersLoop getPath unmarshal limit fuel q n offset orders).2 = some r →
      (∃ os, r = ⟨some os, none⟩) ∨ (∃ err, r = ⟨none, some err⟩) := by
  induction fuel with
  | zero =>
    intro q n offset orders r h
    simp [ordersLoop] at h
  | succ fuel ih =>
    intro q n offset orders r h
    cases hp : fetchPage getPath unmarshal n (ordersPath q offset) with
    | error err =>
      rw [ordersLoop_error getPath unmarshal limit fuel q n offset orders err hp] at h
      simp only [Option.some.injEq] at h
      exact Or.inr ⟨err, h.symm⟩
    | ok out =>
      by_cases hs : toInt32 out.Orders.length < limit
      · rw [ordersLoop_short getPath unmarshal limit fuel q n offset orders out hp hs] at h
        simp only [Option.some.injEq] at h
        exact Or.inl ⟨_, h.symm⟩
      · rw [ordersLoop_full getPath unmarshal limit fuel q n offset orders out hp hs] at h
        exact ih q (n + 1) _ _ r h

/-- The requests of the loop are made at offsets `int32(i * limit)`. -/
theorem ordersLoop_trace (getPath : Fetcher) (unmarshal : Body → Except Error Envelope)
    (limit : Int) (q : Values) (fuel : Nat) :
    ∀ (n : Nat) (orders : List (Option Order)),
      (ordersLoop getPath unmarshal limit fuel q n (toInt32 ((n : Int) * limit)) orders).1
        = pathsFrom q limit n
            (ordersLoop getPath unmarshal limit fuel q n (toInt32 ((n : Int) * limit))
              orders).1.length := by
  induction fuel with
  | zero => intro n orders; simp [ordersLoop, pathsFrom]
  | succ fuel ih =>
    intro n orders
    cases hp : fetchPage getPath unmarshal n (ordersPath q (toInt32 ((n : Int) * limit))) with
    | error err =>
      rw [ordersLoop_error getPath unmarshal limit fuel q n _ orders err hp]
      simp [pathsFrom]
    | ok out =>
      by_cases hs : toInt32 out.Orders.length < limit
      · rw [ordersLoop_short getPath unmarshal limit fuel q n _ orders out hp hs]
        simp [pathsFrom]
      · rw [ordersLoop_full getPath unmarshal limit fuel q n _ orders out hp hs,
          toInt32_succ_mul]
        simp only [List.length_cons, pathsFrom, List.cons.injEq, true_and]
        exact ih (n + 1) _

/-- Two fetchers whose decoded pages carry the same orders drive the loop the
same way. -/
theorem ordersLoop_congr (f g : Fetcher) (unmarshal : Body → Except Error Envelope)
    (limit : Int)
    (h : ∀ i path, (fetchPage f unmarshal i path).map (fun out => out.Orders)
      = (fetchPage g unmarshal i path).map (fun out => out.Orders))
    (fuel : Nat) :
    ∀ (q : Values) (n : Nat) (offset : Int) (orders : List (Option Order)),
      ordersLoop f unmarshal limit fuel q n offset orders
        = ordersLoop g unmarshal limit fuel q n offset orders := by
  induction fuel with
  | zero => intro q n offset orders; rfl
  | succ fuel ih =>
    intro q n offset orders
    have hh := h n (ordersPath q offset)
    cases hf : fetchPage f unmarshal n (ordersPath q offset) with
    | error e =>
      cases hg : fetchPage g unmarshal n (ordersPath q offset) with
      | error e' =>
        rw [hf, hg] at hh
        simp only [Except.map, Except.error.injEq] at hh
        rw [ordersLoop_error f unmarshal limit fuel q n offset orders e hf,
          ordersLoop_error g unmarshal limit fuel q n offset orders e' hg, hh]
      | ok b =>
        rw [hf, hg] at hh
        simp [Except.map] at hh
    | ok a =>
      cases hg : fetchPage g unmarshal n (ordersPath q offset) with
      | error e' =>
        rw [hf, hg] at hh
        simp [Except.map] at hh
      | ok b =>
        rw [hf, hg] at hh
        simp only [Except.map, Except.ok.injEq] at hh
        by_cases hs : toInt32 a.Orders.length < limit
        · rw [ordersLoop_short f unmarshal limit fuel q n offset orders a hf hs,
            ordersLoop_short g unmarshal limit fuel q n offset orders b hg (hh ▸ hs), hh]
        · rw [ordersLoop_full f unmarshal limit fuel q n offset orders a hf hs,
            ordersLoop_full g unmarshal limit fuel q n offset orders b hg (hh ▸ hs), hh,
            ih]

/-! ## Runs of `GetOrdersWithContext` -/

theorem pathsFrom_snoc (q : Values) (limit : Int) (j : Nat) :
    ∀ n, pathsFrom q limit n (j + 1)
      = pathsFrom q limit n j ++ [ordersPath q (toInt32 (((n + j : Nat) : Int) * limit))] := by
  induction j with
  | zero => intro n; simp [pathsFrom]
  | succ j ih =>
    intro n
    rw [pathsFrom, ih (n + 1), show n + 1 + j = n + (j + 1) by omega]
    simp [pathsFrom]

theorem concatPages_snoc (p : Nat → List (Option Order)) (j : Nat) :
    ∀ n, concatPages p n (j + 1) = concatPages p n j ++ p (n + j) := by
  induction j with
  | zero => intro n; simp [concatPages]
  | succ j ih =>
    intro n
    rw [concatPages, ih (n + 1), show n + 1 + j = n + (j + 1) by omega]
    simp [concatPages]

/-- The run that meets `k` full pages and then a short one. -/
theorem GetOrdersWithContext_short_at (getPath : Fetcher)
    (unmarshal : Body → Except Error Envelope) (opt : GetOrderOpts) (k fuel : Nat)
    (out : Envelope)
    (hfull : ∀ i, i < k → ∃ out,
      fetchPage getPath unmarshal i
          (requestPath opt (toInt32 ((i : Int) * (withDefaultLimit opt).Limit))) = .ok out
        ∧ ¬ toInt32 out.Orders.length < (withDefaultLimit opt).Limit)
    (hlast : fetchPage getPath unmarshal k
      (requestPath opt (toInt32 ((k : Int) * (withDefaultLimit opt).Limit))) = .ok out)
    (hshort : toInt32 out.Orders.length < (withDefaultLimit opt).Limit)
    (hfuel : k < fuel) :
    GetOrdersWithContext getPath unmarshal opt fuel
      = (pathsFrom (reflectValue [] (withDefaultLimit opt).fields)
            (withDefaultLimit opt).Limit 0 (k + 1),
         some ⟨some (concatPages (pageAt getPath unmarshal
            (reflectValue [] (withDefaultLimit opt).fields) (withDefaultLimit opt).Limit)
            0 (k + 1)), none⟩) := by
  obtain ⟨d, rfl⟩ : ∃ d, fuel = k + (d + 1) := ⟨fuel - k - 1, by omega⟩
  have hpre := ordersLoop_full_pages getPath unmarshal (withDefaultLimit opt).Limit
    (reflectValue [] (withDefaultLimit opt).fields) (d + 1) k 0 []
    (by
      intro i hi
      simpa only [Nat.zero_add, requestPath] using hfull i hi)
  have h0 : toInt32 (((0 : Nat) : Int) * (withDefaultLimit opt).Limit) = 0 := by
    simp [toInt32]
  rw [h0] at hpre
  have hpage : pageAt getPath unmarshal (reflectValue [] (withDefaultLimit opt).fields)
      (withDefaultLimit opt).Limit k = out.Orders := by
    simp only [pageAt]
    rw [show ordersPath (reflectValue [] (withDefaultLimit opt).fields)
        (toInt32 ((k : Int) * (withDefaultLimit opt).Limit))
      = requestPath opt (toInt32 ((k : Int) * (withDefaultLimit opt).Limit)) from rfl, hlast]
  rw [GetOrdersWithContext_eq, hpre, Nat.zero_add,
    ordersLoop_short getPath unmarshal _ d _ k _ _ out hlast hshort,
    pathsFrom_snoc, concatPages_snoc]
  simp only [Nat.zero_add, hpage, List.nil_append]

/-- The run that meets `j` full pages and then a failing request. -/
theorem GetOrdersWithContext_error_at (getPath : Fetcher)
    (unmarshal : Body → Except Error Envelope) (opt : GetOrderOpts) (j fuel : Nat)
    (err : Error)
    (hfull : ∀ i, i < j → ∃ out,
      fetchPage getPath unmarshal i
          (requestPath opt (toInt32 ((i : Int) * (withDefaultLimit opt).Limit))) = .ok out
        ∧ ¬ toInt32 out.Orders.length < (withDefaultLimit opt).Limit)
    (hfail : fetchPage getPath unmarshal j
      (requestPath opt (toInt32 ((j : Int) * (withDefaultLimit opt).Limit))) = .error err)
    (hfuel : j < fuel) :
    GetOrdersWithContext getPath unmarshal opt fuel
      = (pathsFrom (reflectValue [] (withDefaultLimit opt).fields)
            (withDefaultLimit opt).Limit 0 (j + 1),
         some ⟨none, some err⟩) := by
  obtain ⟨d, rfl⟩ : ∃ d, fuel = j + (d + 1) := ⟨fuel - j - 1, by omega⟩
  have hpre := ordersLoop_full_pages getPath unmarshal (withDefaultLimit opt).Limit
    (reflectValue [] (withDefaultLimit opt).fields) (d + 1) j 0 []
    (by
      intro i hi
      simpa only [Nat.zero_add, requestPath] using hfull i hi)
  have h0 : toInt32 (((0 : Nat) : Int) * (withDefaultLimit opt).Limit) = 0 := by
    simp [toInt32]
  rw [h0] at hpre
  rw [GetOrdersWithContext_eq, hpre, Nat.zero_add,
    ordersLoop_error getPath unmarshal _ d _ j _ _ err hfail, pathsFrom_snoc]
  simp

/-- The run in which no page is short and no request fails uses all its fuel. -/
theorem GetOrdersWithContext_never_short (getPath : Fetcher)
    (unmarshal : Body → Except Error Envelope) (opt : GetOrderOpts) (fuel : Nat)
    (hfull : ∀ i, i < fuel → ∃ out,
      fetchPage getPath unmarshal i
          (requestPath opt (toInt32 ((i : Int) * (withDefaultLimit opt).Limit))) = .ok out
        ∧ ¬ toInt32 out.Orders.length < (withDefaultLimit opt).Limit) :
    GetOrdersWithContext getPath unmarshal opt fuel
      = (pathsFrom (reflectValue [] (withDefaultLimit opt).fields)
            (withDefaultLimit opt).Limit 0 fuel, none) := by
  have hpre := ordersLoop_full_pages getPath unmarshal (withDefaultLimit opt).Limit
    (reflectValue [] (withDefaultLimit opt).fields) 0 fuel 0 []
    (by
      intro i hi
      simpa only [Nat.zero_add, requestPath] using hfull i hi)
  have h0 : toInt32 (((0 : Nat) : Int) * (withDefaultLimit opt).Limit) = 0 := by
    simp [toInt32]
  rw [h0] at hpre
  rw [GetOrdersWithContext_eq]
  rw [Nat.add_zero] at hpre
  rw [hpre]
  simp [ordersLoop]

theorem pathsFrom_zero_eq_range (opt : GetOrderOpts) (j : Nat) :
    pathsFrom (reflectValue [] (withDefaultLimit opt).fields) (withDefaultLimit opt).Limit 0 j
      = (List.range j).map
          (fun (i : Nat) => requestPath opt (toInt32 ((i : Int) * (withDefaultLimit opt).Limit))) := by
  rw [pathsFrom_eq_map, List.range_eq_range']
  rfl

theorem bodiesFetcher_page (bodies : List Body) (hne : ∀ b ∈ bodies, b ≠ []) (i : Nat)
    (path : String) :
    ∃ c, fetchPage (bodiesFetcher bodies) decodeIDs i path = .ok ⟨c, bodiesPage bodies i⟩ := by
  have hb : bodies.getD i [0] ≠ [] := by
    rw [List.getD_eq_getElem?_getD]
    cases h : bodies[i]? with
    | none => simp
    | some b => simpa using hne b (List.getElem?_mem h)
  simp only [fetchPage, bodiesFetcher, bodiesPage]
  cases hh : bodies.getD i [0] with
  | nil => exact absurd hh hb
  | cons c ids => exact ⟨c.toNat, rfl⟩

/-- The run over pages `p 0, p 1, ...` whose first short page has index `k`;
`p i` is the page returned to call `i` at the path of offset `i * limit`. -/
theorem GetOrdersWithContext_pages (getPath : Fetcher)
    (unmarshal : Body → Except Error Envelope) (opt : GetOrderOpts)
    (p : Nat → List (Option Order)) (k fuel : Nat)
    (hlimit : 0 < (withDefaultLimit opt).Limit)
    (hresp : ∀ i, i ≤ k → ∃ c,
      fetchPage getPath unmarshal i
        (requestPath opt ((i : Int) * (withDefaultLimit opt).Limit)) = .ok ⟨c, p i⟩)
    (hfull : ∀ i, i < k →
      (withDefaultLimit opt).Limit ≤ ((p i).length : Int) ∧ (p i).length < 2147483648)
    (hshort : ((p k).length : Int) < (withDefaultLimit opt).Limit)
    (hfit : (k : Int) * (withDefaultLimit opt).Limit < 2147483648)
    (hfuel : k < fuel) :
    GetOrdersWithContext getPath unmarshal opt fuel
      = ((List.range (k + 1)).map
            (fun (i : Nat) => requestPath opt ((i : Int) * (withDefaultLimit opt).Limit)),
         some ⟨some ((List.range (k + 1)).flatMap p), none⟩) := by
  have hoff : ∀ i, i ≤ k →
      toInt32 ((i : Int) * (withDefaultLimit opt).Limit)
        = (i : Int) * (withDefaultLimit opt).Limit := by
    intro i hi
    have hik : (i : Int) ≤ k := by omega
    have h1 : (i : Int) * (withDefaultLimit opt).Limit
        ≤ (k : Int) * (withDefaultLimit opt).Limit :=
      Int.mul_le_mul_of_nonneg_right hik (le_of_lt hlimit)
    have h2 : 0 ≤ (i : Int) * (withDefaultLimit opt).Limit :=
      Int.mul_nonneg (Int.ofNat_nonneg i) (le_of_lt hlimit)
    exact toInt32_of_range (by omega) (by omega)
  have hresp' : ∀ i, i ≤ k → ∃ c,
      fetchPage getPath unmarshal i
        (requestPath opt (toInt32 ((i : Int) * (withDefaultLimit opt).Limit)))
        = .ok ⟨c, p i⟩ := by
    intro i hi
    rw [hoff i hi]
    exact hresp i hi
  obtain ⟨ck, hk⟩ := hresp' k (le_refl k)
  have hrun := GetOrdersWithContext_short_at getPath unmarshal opt k fuel ⟨ck, p k⟩
    (by
      intro i hi
      obtain ⟨c, hc⟩ := hresp' i (le_of_lt hi)
      refine ⟨⟨c, p i⟩, hc, ?_⟩
      have := hfull i hi
      simp only [toInt32]
      omega)
    hk
    (by simp only [toInt32]; omega)
    hfuel
  have hpages : ∀ i, i < k + 1 →
      pageAt getPath unmarshal (reflectValue [] (withDefaultLimit opt).fields)
        (withDefaultLimit opt).Limit (0 + i) = p (0 + i) := by
    intro i hi
    obtain ⟨c, hc⟩ := hresp' i (by omega)
    simp only [Nat.zero_add, pageAt]
    rw [show ordersPath (reflectValue [] (withDefaultLimit opt).fields)
        (toInt32 ((i : Int) * (withDefaultLimit opt).Limit))
      = requestPath opt (toInt32 ((i : Int) * (withDefaultLimit opt).Limit)) from rfl, hc]
  have hpaths : ∀ i ∈ List.range (k + 1),
      requestPath opt (toInt32 ((i : Int) * (withDefaultLimit opt).Limit))
        = requestPath opt ((i : Int) * (withDefaultLimit opt).Limit) := by
    intro i hi
    rw [hoff i (by have := List.mem_range.mp hi; omega)]
  rw [hrun, pathsFrom_zero_eq_range, concatPages_congr _ p (k + 1) 0 hpages,
    concatPages_eq_flatMap, ← List.range_eq_range', List.map_congr_left hpaths]

/-! ## The claims -/

/-- C1 (amended): for an effective limit `L > 0` and a fetcher whose response
to the `i`-th request, made at offset `i * L`, decodes to the page `p i`, if
every page before index `k` has at least `L` and fewer than `2^31` orders,
page `k` has fewer than `L` orders and `k * L` fits in `int32`, then
`GetOrdersWithContext` returns without error after exactly `k + 1` requests,
made at the offsets `0, L, ..., k * L`, also when page `k` is empty. -/
theorem getOrders_stops_at_first_short_page (getPath : Fetcher)
    (unmarshal : Body → Except Error Envelope) (opt : GetOrderOpts)
    (p : Nat → List (Option Order)) (k fuel : Nat)
    (hlimit : 0 < (withDefaultLimit opt).Limit)
    (hresp : ∀ i, i ≤ k → ∃ c,
      fetchPage getPath unmarshal i
        (requestPath opt ((i : Int) * (withDefaultLimit opt).Limit)) = .ok ⟨c, p i⟩)
    (hfull : ∀ i, i < k →
      (withDefaultLimit opt).Limit ≤ ((p i).length : Int) ∧ (p i).length < 2147483648)
    (hshort : ((p k).length : Int) < (withDefaultLimit opt).Limit)
    (hfit : (k : Int) * (withDefaultLimit opt).Limit < 2147483648)
    (hfuel : k < fuel) :
    GetOrdersWithContext getPath unmarshal opt fuel
      = ((List.range (k + 1)).map
            (fun (i : Nat) => requestPath opt ((i : Int) * (withDefaultLimit opt).Limit)),
         some ⟨some ((List.range (k + 1)).flatMap p), none⟩) :=
  GetOrdersWithContext_pages getPath unmarshal opt p k fuel hlimit hresp hfull hshort hfit hfuel

/-- C1, witness: pages of 100, 100 and 37 orders with limit 100 give three
requests at offsets 0, 100 and 200; pages of 100, 100 and 0 orders give three
requests as well; so does a stateless fetcher that answers by path, with
pages of 2, 2 and 0 orders at limit 2. -/
theorem getOrders_stops_at_first_short_page_witness :
    (GetOrdersWithContext (bodiesFetcher bodies237) decodeIDs { Limit := 100 } 5
      = ((List.range 3).map (fun (i : Nat) => requestPath { Limit := 100 } ((i : Int) * 100)),
         some ⟨some ((List.range 3).flatMap (bodiesPage bodies237)), none⟩))
    ∧ (GetOrdersWithContext (bodiesFetcher bodies200) decodeIDs { Limit := 100 } 5
      = ((List.range 3).map (fun (i : Nat) => requestPath { Limit := 100 } ((i : Int) * 100)),
         some ⟨some ((List.range 3).flatMap (bodiesPage bodies200)), none⟩))
    ∧ (GetOrdersWithContext pathFetcher decodeIDs { Limit := 2 } 5
      = ((List.range 3).map (fun (i : Nat) => requestPath { Limit := 2 } ((i : Int) * 2)),
         some ⟨some ((List.range 3).flatMap pathPage), none⟩)) := by
  refine ⟨?_, ?_, ?_⟩
  · exact getOrders_stops_at_first_short_page (bodiesFetcher bodies237) decodeIDs
      { Limit := 100 } (bodiesPage bodies237) 2 5 (by decide)
      (fun i _ => bodiesFetcher_page bodies237 (by decide) i _)
      (by
        intro i hi
        have hc : i = 0 ∨ i = 1 := by omega
        rcases hc with rfl | rfl <;> decide)
      (by decide) (by decide) (by decide)
  · exact getOrders_stops_at_first_short_page (bodiesFetcher bodies200) decodeIDs
      { Limit := 100 } (bodiesPage bodies200) 2 5 (by decide)
      (fun i _ => bodiesFetcher_page bodies200 (by decide) i _)
      (by
        intro i hi
        have hc : i = 0 ∨ i = 1 := by omega
        rcases hc with rfl | rfl <;> decide)
      (by decide) (by decide) (by decide)
  · exact getOrders_stops_at_first_short_page pathFetcher decodeIDs
      { Limit := 2 } pathPage 2 5 (by decide)
      (by
        intro i hi
        have hc : i = 0 ∨ i = 1 ∨ i = 2 := by omega
        rcases hc with rfl | rfl | rfl
        · exact ⟨5, by rfl⟩
        · exact ⟨5, by rfl⟩
        · exact ⟨5, by rfl⟩)
      (by
        intro i hi
        have hc : i = 0 ∨ i = 1 := by omega
        rcases hc with rfl | rfl <;> decide)
      (by decide) (by decide) (by decide)

theorem hugeFetcher_page (i : Nat) (path : String) :
    fetchPage hugeFetcher decodeIDs i path = .ok ⟨0, hugePage i⟩ := by
  by_cases h : i = 0
  · simp only [fetchPage, hugeFetcher, hugePage, if_pos h, decodeIDs]
    rfl
  · simp only [fetchPage, hugeFetcher, hugePage, if_neg h, decodeIDs]
    rfl

theorem hugePage_zero_length : (hugePage 0).length = 2147483648 := by
  simp only [hugePage, if_true, List.length_map, hugeBody, List.length_replicate]

/-- C1, counterexample: with limit 1, a first page of `2^31` orders and an
empty second page, index 1 is the least index of a page shorter than the
limit and `1 * 1` fits in `int32`, yet a single request is issued: the page
length converted to `int32` is negative, so the first page counts as short. -/
theorem getOrders_stops_at_first_short_page_counterexample :
    (0 : Int) < (withDefaultLimit { Limit := 1 }).Limit
    ∧ (∀ i path, ∃ c, fetchPage hugeFetcher decodeIDs i path = .ok ⟨c, hugePage i⟩)
    ∧ (∀ i, i < 1 → (withDefaultLimit { Limit := 1 }).Limit ≤ ((hugePage i).length : Int))
    ∧ ((hugePage 1).length : Int) < (withDefaultLimit { Limit := 1 }).Limit
    ∧ ((1 : Nat) : Int) * (withDefaultLimit { Limit := 1 }).Limit < 2147483648
    ∧ ∀ fuel, (GetOrdersWithContext hugeFetcher decodeIDs { Limit := 1 } (fuel + 1)).1.length
        = 1 := by
  have hL : (withDefaultLimit { Limit := 1 }).Limit = 1 := by decide
  refine ⟨by decide, fun i path => ⟨0, hugeFetcher_page i path⟩, ?_, by decide, by decide, ?_⟩
  · intro i hi
    obtain rfl : i = 0 := by omega
    rw [hugePage_zero_length, hL]
    decide
  · intro fuel
    have hrun := GetOrdersWithContext_short_at hugeFetcher decodeIDs { Limit := 1 } 0
      (fuel + 1) ⟨0, hugePage 0⟩ (by intro i hi; omega) (hugeFetcher_page 0 _)
      (by
        show toInt32 ((hugePage 0).length : Int) < _
        rw [hugePage_zero_length, hL]
        decide)
      (Nat.succ_pos fuel)
    rw [hrun, pathsFrom_length]

/-- C2: whenever `GetOrdersWithContext` returns successfully, every request
of the run was answered with a page, and the returned sequence is the
concatenation of those pages in fetch order; its length is the sum of the
page lengths. -/
theorem getOrders_returns_concatenation (getPath : Fetcher)
    (unmarshal : Body → Except Error Envelope) (opt : GetOrderOpts) (fuel : Nat)
    (trace : List String) (os : List (Option Order))
    (h : GetOrdersWithContext getPath unmarshal opt fuel = (trace, some ⟨some os, none⟩)) :
    ∃ pages, fetchedPages getPath unmarshal 0 trace = some pages
      ∧ os = pages.flatten
      ∧ os.length = (pages.map List.length).sum := by
  rw [GetOrdersWithContext_eq] at h
  obtain ⟨pages, hp, hos⟩ := ordersLoop_concat getPath unmarshal _ fuel _ 0 0 [] trace os h
  refine ⟨pages, hp, by simpa using hos, ?_⟩
  rw [hos, List.nil_append, List.length_flatten]

/-- C2, witness: pages of 100, 100 and 37 orders yield the 237 orders in page
order. -/
theorem getOrders_returns_concatenation_witness :
    ∃ pages,
      fetchedPages (bodiesFetcher bodies237) decodeIDs 0
          ((List.range 3).map (fun (i : Nat) => requestPath { Limit := 100 } ((i : Int) * 100)))
        = some pages
      ∧ (List.range 3).flatMap (bodiesPage bodies237) = pages.flatten
      ∧ ((List.range 3).flatMap (bodiesPage bodies237)).length
        = (pages.map List.length).sum :=
  getOrders_returns_concatenation (bodiesFetcher bodies237) decodeIDs { Limit := 100 } 5
    ((List.range 3).map (fun (i : Nat) => requestPath { Limit := 100 } ((i : Int) * 100)))
    ((List.range 3).flatMap (bodiesPage bodies237))
    (GetOrdersWithContext_pages (bodiesFetcher bodies237) decodeIDs
      { Limit := 100 } (bodiesPage bodies237) 2 5 (by decide)
      (fun i _ => bodiesFetcher_page bodies237 (by decide) i _)
      (by
        intro i hi
        have hc : i = 0 ∨ i = 1 := by omega
        rcases hc with rfl | rfl <;> decide)
      (by decide) (by decide) (by decide))

/-- C3: if the requests before the `j`-th (counted from 0) are answered with
pages that are not short and the `j`-th request fails, in transport or in
decoding, then `GetOrdersWithContext` returns that error with a nil order
sequence after `j + 1` requests; and, for every fetcher, every return of the
function is either `(orders, nil)` or `(nil, err)`. -/
theorem getOrders_aborts_on_first_failure (getPath : Fetcher)
    (unmarshal : Body → Except Error Envelope) (opt : GetOrderOpts) :
    (∀ (j fuel : Nat) (err : Error),
      (∀ i, i < j → ∃ out,
        fetchPage getPath unmarshal i
            (requestPath opt (toInt32 ((i : Int) * (withDefaultLimit opt).Limit))) = .ok out
          ∧ ¬ toInt32 out.Orders.length < (withDefaultLimit opt).Limit) →
      (getPath j (requestPath opt (toInt32 ((j : Int) * (withDefaultLimit opt).Limit)))
            = .error err
        ∨ ∃ b,
          getPath j (requestPath opt (toInt32 ((j : Int) * (withDefaultLimit opt).Limit)))
              = .ok b
            ∧ unmarshal b = .error err) →
      j < fuel →
      GetOrdersWithContext getPath unmarshal opt fuel
        = ((List.range (j + 1)).map
            (fun (i : Nat) =>
              requestPath opt (toInt32 ((i : Int) * (withDefaultLimit opt).Limit))),
           some ⟨none, some err⟩))
      ∧ ∀ fuel r, (GetOrdersWithContext getPath unmarshal opt fuel).2 = some r →
          (∃ os, r = ⟨some os, none⟩) ∨ (∃ e, r = ⟨none, some e⟩) := by
  constructor
  · intro j fuel err hprev hfail hfuel
    have hf : fetchPage getPath unmarshal j
        (requestPath opt (toInt32 ((j : Int) * (withDefaultLimit opt).Limit)))
        = .error err := by
      rcases hfail with h | ⟨b, hb, hu⟩
      · simp only [fetchPage, h]
      · simp only [fetchPage, hb, hu]
    rw [GetOrdersWithContext_error_at getPath unmarshal opt j fuel err hprev hf hfuel,
      pathsFrom_zero_eq_range]
  · intro fuel r hr
    rw [GetOrdersWithContext_eq] at hr
    exact ordersLoop_result getPath unmarshal _ fuel _ 0 0 [] r hr

/-- C3, witness: the fetcher fails on the second page; the orders of the
first page are not returned. -/
theorem getOrders_aborts_on_first_failure_witness :
    GetOrdersWithContext secondFails decodeIDs { Limit := 2 } 3
        = ((List.range 2).map
            (fun (i : Nat) =>
              requestPath { Limit := 2 }
                (toInt32 ((i : Int) * (withDefaultLimit { Limit := 2 }).Limit))),
           some ⟨none, some "timeout"⟩)
      ∧ ∀ fuel r, (GetOrdersWithContext secondFails decodeIDs { Limit := 2 } fuel).2 = some r →
          (∃ os, r = ⟨some os, none⟩) ∨ (∃ e, r = ⟨none, some e⟩) :=
  ⟨(getOrders_aborts_on_first_failure secondFails decodeIDs { Limit := 2 }).1 1 3 "timeout"
      (by
        intro i hi
        obtain rfl : i = 0 := by omega
        exact ⟨⟨3, [some (orderWithID 1), some (orderWithID 2)]⟩, rfl, by decide⟩)
      (Or.inl rfl) (by decide),
    (getOrders_aborts_on_first_failure secondFails decodeIDs { Limit := 2 }).2⟩

/-- C4: with `Limit = 0` the function issues the same requests and returns
the same result as with `Limit = 100`. -/
theorem getOrders_default_limit (getPath : Fetcher)
    (unmarshal : Body → Except Error Envelope) (opt : GetOrderOpts) (fuel : Nat) :
    GetOrdersWithContext getPath unmarshal { opt with Limit := 0 } fuel
      = GetOrdersWithContext getPath unmarshal { opt with Limit := 100 } fuel := by
  simp [GetOrdersWithContext]

theorem fetchedPages_length (getPath : Fetcher) (unmarshal : Body → Except Error Envelope)
    (l : List String) :
    ∀ (n : Nat) (pages : List (List (Option Order))),
      fetchedPages getPath unmarshal n l = some pages → pages.length = l.length := by
  induction l with
  | nil =>
    intro n pages h
    simp only [fetchedPages, Option.some.injEq] at h
    subst h
    rfl
  | cons path rest ih =>
    intro n pages h
    simp only [fetchedPages] at h
    cases hp : fetchPage getPath unmarshal n path with
    | error e => simp [hp] at h
    | ok out =>
      simp only [hp, Option.map_eq_some'] at h
      obtain ⟨ps, hps, rfl⟩ := h
      simp [ih (n + 1) ps hps]

theorem flatten_length_of_exact (limit : Int) (pages : List (List (Option Order)))
    (h : ∀ pg ∈ pages, (pg.length : Int) = limit) :
    (pages.flatten.length : Int) = (pages.length : Int) * limit := by
  induction pages with
  | nil => simp
  | cons pg rest ih =>
    have h1 := h pg (List.mem_cons_self pg rest)
    have h2 := ih (fun x hx => h x (List.mem_cons_of_mem pg hx))
    simp only [List.flatten_cons, List.length_append, List.length_cons, Nat.cast_add,
      Nat.cast_one, h1, h2]
    ring

/-- C8 (amended): the offset of the `i`-th request (counted from 0) is
`int32(i * Limit)`, the number of earlier requests times the limit; it equals
the number of orders accumulated from the earlier pages when each of them held
exactly `Limit` orders and `i * Limit` fits in `int32`. -/
theorem getOrders_offset_is_calls_times_limit (getPath : Fetcher)
    (unmarshal : Body → Except Error Envelope) (opt : GetOrderOpts) (fuel i : Nat)
    (hi : i < (GetOrdersWithContext getPath unmarshal opt fuel).1.length) :
    (GetOrdersWithContext getPath unmarshal opt fuel).1[i]?
        = some (requestPath opt (toInt32 ((i : Int) * (withDefaultLimit opt).Limit)))
      ∧ ∀ pages,
        fetchedPages getPath unmarshal 0
            ((GetOrdersWithContext getPath unmarshal opt fuel).1.take i) = some pages →
        (∀ pg ∈ pages, (pg.length : Int) = (withDefaultLimit opt).Limit) →
        (i : Int) * (withDefaultLimit opt).Limit < 2147483648 →
        toInt32 ((i : Int) * (withDefaultLimit opt).Limit) = (pages.flatten.length : Int) := by
  have h0 : toInt32 (((0 : Nat) : Int) * (withDefaultLimit opt).Limit) = 0 := by
    simp [toInt32]
  have htrace := ordersLoop_trace getPath unmarshal (withDefaultLimit opt).Limit
    (reflectValue [] (withDefaultLimit opt).fields) fuel 0 []
  rw [h0, ← GetOrdersWithContext_eq, pathsFrom_zero_eq_range] at htrace
  constructor
  · rw [htrace, List.getElem?_map, List.getElem?_range hi]
    rfl
  · intro pages hpages hexact hfit
    have hlen := fetchedPages_length getPath unmarshal _ 0 pages hpages
    rw [List.length_take, Nat.min_eq_left (le_of_lt hi)] at hlen
    have hsum := flatten_length_of_exact _ pages hexact
    rw [hlen] at hsum
    rw [hsum]
    apply toInt32_of_range
    · rw [← hsum]
      have : (0 : Int) ≤ (pages.flatten.length : Int) := Int.ofNat_nonneg _
      omega
    · exact hfit

theorem bodiesExact_run :
    GetOrdersWithContext (bodiesFetcher bodiesExact) decodeIDs { Limit := 2 } 4
      = ((List.range 3).map (fun (i : Nat) => requestPath { Limit := 2 } ((i : Int) * 2)),
         some ⟨some ((List.range 3).flatMap (bodiesPage bodiesExact)), none⟩) :=
  GetOrdersWithContext_pages (bodiesFetcher bodiesExact) decodeIDs { Limit := 2 }
    (bodiesPage bodiesExact) 2 4 (by decide)
    (fun i _ => bodiesFetcher_page bodiesExact (by decide) i _)
    (by
      intro i hi
      have hc : i = 0 ∨ i = 1 := by omega
      rcases hc with rfl | rfl <;> decide)
    (by decide) (by decide) (by decide)

/-- C8, witness: with limit 2 and pages of 2, 2 and 0 orders, the last
request is made at offset 4, the number of orders fetched before it. -/
theorem getOrders_offset_is_calls_times_limit_witness :
    2 < (GetOrdersWithContext (bodiesFetcher bodiesExact) decodeIDs { Limit := 2 } 4).1.length
      ∧ (GetOrdersWithContext (bodiesFetcher bodiesExact) decodeIDs { Limit := 2 } 4).1[2]?
        = some (requestPath { Limit := 2 } (toInt32 4))
      ∧ toInt32 4
        = (([bodiesPage bodiesExact 0, bodiesPage bodiesExact 1].flatten.length : Nat) : Int) := by
  have hi : 2 < (GetOrdersWithContext (bodiesFetcher bodiesExact) decodeIDs
      { Limit := 2 } 4).1.length := by
    rw [bodiesExact_run]
    decide
  have h := getOrders_offset_is_calls_times_limit (bodiesFetcher bodiesExact) decodeIDs
    { Limit := 2 } 4 2 hi
  refine ⟨hi, h.1, h.2 [bodiesPage bodiesExact 0, bodiesPage bodiesExact 1] ?_ ?_ ?_⟩
  · rw [bodiesExact_run]
    rfl
  · decide
  · decide

/-- C8, counterexample: with limit 1 and a first page of 2 orders, the
second request is made at offset 1 although 2 orders have been accumulated. -/
theorem getOrders_offset_running_count_counterexample :
    (GetOrdersWithContext (bodiesFetcher bodiesOver) decodeIDs { Limit := 1 } 3).1[1]?
        = some ("/wyvern/v1/orders?AssetContractAddress=&Limit=1&ListedAfter=&ListedBefore="
            ++ "&Offset=0&OrderBy=&OrderDirection=&TokenId=&offset=1")
      ∧ fetchedPages (bodiesFetcher bodiesOver) decodeIDs 0
          ((GetOrdersWithContext (bodiesFetcher bodiesOver) decodeIDs { Limit := 1 } 3).1.take 1)
        = some [[some (orderWithID 7), some (orderWithID 8)]] := by
  decide

/-- C9: two fetchers whose responses decode, page by page, to the same order
sequences (or fail with the same error) make `GetOrdersWithContext` issue the
same requests and return the same result, whatever the count fields are. -/
theorem getOrders_ignores_count (f g : Fetcher) (unmarshal : Body → Except Error Envelope)
    (opt : GetOrderOpts) (fuel : Nat)
    (h : ∀ i path, (fetchPage f unmarshal i path).map (fun out => out.Orders)
      = (fetchPage g unmarshal i path).map (fun out => out.Orders)) :
    GetOrdersWithContext f unmarshal opt fuel = GetOrdersWithContext g unmarshal opt fuel := by
  rw [GetOrdersWithContext_eq, GetOrdersWithContext_eq]
  exact ordersLoop_congr f g unmarshal _ h fuel _ 0 0 []

/-- C9, witness: the same pages under different count fields. -/
theorem getOrders_ignores_count_witness :
    GetOrdersWithContext (bodiesFetcher bodiesExact) decodeIDs { Limit := 2 } 4
      = GetOrdersWithContext (bodiesFetcher bodiesRecount) decodeIDs { Limit := 2 } 4 :=
  getOrders_ignores_count (bodiesFetcher bodiesExact) (bodiesFetcher bodiesRecount) decodeIDs
    { Limit := 2 } 4
    (by
      intro i path
      rcases i with _ | _ | _ | i <;> rfl)

/-- A return of the loop is caused by a failing request or by a page that the
`int32` test finds short. -/
theorem ordersLoop_return_cause (getPath : Fetcher) (unmarshal : Body → Except Error Envelope)
    (limit : Int) (q : Values) (fuel : Nat) :
    ∀ (n : Nat) (orders : List (Option Order)) (trace : List String) (r : OrdersResult),
      ordersLoop getPath unmarshal limit fuel q n (toInt32 ((n : Int) * limit)) orders
        = (trace, some r) →
      ∃ m, n ≤ m ∧ m < n + trace.length ∧
        ((∃ e, fetchPage getPath unmarshal m (ordersPath q (toInt32 ((m : Int) * limit)))
              = .error e ∧ r = ⟨none, some e⟩)
          ∨ (∃ out, fetchPage getPath unmarshal m (ordersPath q (toInt32 ((m : Int) * limit)))
              = .ok out ∧ toInt32 out.Orders.length < limit)) := by
  induction fuel with
  | zero =>
    intro n orders trace r h
    simp [ordersLoop] at h
  | succ fuel ih =>
    intro n orders trace r h
    cases hp : fetchPage getPath unmarshal n (ordersPath q (toInt32 ((n : Int) * limit))) with
    | error err =>
      rw [ordersLoop_error getPath unmarshal limit fuel q n _ orders err hp] at h
      simp only [Prod.mk.injEq, Option.some.injEq] at h
      obtain ⟨ht, hr⟩ := h
      subst ht
      exact ⟨n, le_refl n, by simp, Or.inl ⟨err, hp, hr.symm⟩⟩
    | ok out =>
      by_cases hs : toInt32 out.Orders.length < limit
      · rw [ordersLoop_short getPath unmarshal limit fuel q n _ orders out hp hs] at h
        simp only [Prod.mk.injEq, Option.some.injEq] at h
        obtain ⟨ht, _⟩ := h
        subst ht
        exact ⟨n, le_refl n, by simp, Or.inr ⟨out, hp, hs⟩⟩
      · rw [ordersLoop_full getPath unmarshal limit fuel q n _ orders out hp hs,
          toInt32_succ_mul] at h
        generalize hX : ordersLoop getPath unmarshal limit fuel q (n + 1)
          (toInt32 (((n + 1 : Nat) : Int) * limit)) (orders ++ out.Orders) = X at h
        simp only [Prod.mk.injEq] at h
        obtain ⟨ht, hr⟩ := h
        obtain ⟨m, hm1, hm2, hm⟩ := ih (n + 1) (orders ++ out.Orders) X.1 r
          (by rw [hX]; exact Prod.ext rfl hr)
        have hl : trace.length = X.1.length + 1 := by rw [← ht]; rfl
        exact ⟨m, by omega, by omega, hm⟩

/-- C10 (amended): take a fetcher whose pages each hold fewer than `2^31`
orders.  For `Limit < 0`, if no request fails, `GetOrdersWithContext` never
returns: whatever the fuel `n`, all `n` requests are issued, the `i`-th at
offset `int32(i * Limit)`, and no result is produced.  The same holds for any
limit when no request fails and no page is shorter than the limit.  And a call
that returns has met a failing request or, with a positive effective limit,
a page shorter than the limit. -/
theorem getOrders_negative_limit_never_returns (getPath : Fetcher)
    (unmarshal : Body → Except Error Envelope) (opt : GetOrderOpts)
    (hsize : ∀ i path out,
      fetchPage getPath unmarshal i path = .ok out → out.Orders.length < 2147483648) :
    (opt.Limit < 0 →
      (∀ i : Nat, ∃ out,
        fetchPage getPath unmarshal i (requestPath opt (toInt32 ((i : Int) * opt.Limit)))
          = .ok out) →
      ∀ fuel, GetOrdersWithContext getPath unmarshal opt fuel
        = ((List.range fuel).map
            (fun (i : Nat) => requestPath opt (toInt32 ((i : Int) * opt.Limit))), none))
    ∧ ((∀ i : Nat, ∃ out,
        fetchPage getPath unmarshal i
            (requestPath opt (toInt32 ((i : Int) * (withDefaultLimit opt).Limit))) = .ok out
          ∧ ¬ ((out.Orders.length : Int) < (withDefaultLimit opt).Limit)) →
      ∀ fuel, GetOrdersWithContext getPath unmarshal opt fuel
        = ((List.range fuel).map
            (fun (i : Nat) =>
              requestPath opt (toInt32 ((i : Int) * (withDefaultLimit opt).Limit))), none))
    ∧ (∀ fuel trace r, GetOrdersWithContext getPath unmarshal opt fuel = (trace, some r) →
      ∃ m, m < trace.length ∧
        ((∃ e, fetchPage getPath unmarshal m
              (requestPath opt (toInt32 ((m : Int) * (withDefaultLimit opt).Limit)))
              = .error e ∧ r = ⟨none, some e⟩)
          ∨ (0 < (withDefaultLimit opt).Limit ∧ ∃ out,
              fetchPage getPath unmarshal m
                (requestPath opt (toInt32 ((m : Int) * (withDefaultLimit opt).Limit)))
                = .ok out
              ∧ (out.Orders.length : Int) < (withDefaultLimit opt).Limit))) := by
  have hnever : (∀ i : Nat, ∃ out,
        fetchPage getPath unmarshal i
            (requestPath opt (toInt32 ((i : Int) * (withDefaultLimit opt).Limit))) = .ok out
          ∧ ¬ ((out.Orders.length : Int) < (withDefaultLimit opt).Limit)) →
      ∀ fuel, GetOrdersWithContext getPath unmarshal opt fuel
        = ((List.range fuel).map
            (fun (i : Nat) =>
              requestPath opt (toInt32 ((i : Int) * (withDefaultLimit opt).Limit))), none) := by
    intro hok fuel
    rw [GetOrdersWithContext_never_short getPath unmarshal opt fuel
      (by
        intro i _
        obtain ⟨out, hout, hlen⟩ := hok i
        have hsz := hsize i _ out hout
        refine ⟨out, hout, ?_⟩
        simp only [toInt32]
        omega), pathsFrom_zero_eq_range]
  refine ⟨?_, hnever, ?_⟩
  · intro hneg hok fuel
    have hopt : withDefaultLimit opt = opt := by
      simp only [withDefaultLimit]
      rw [if_neg (by omega)]
    have h := hnever
      (by
        intro i
        rw [hopt]
        obtain ⟨out, hout⟩ := hok i
        exact ⟨out, hout, by omega⟩)
      fuel
    rw [hopt] at h
    exact h
  · intro fuel trace r hrun
    rw [GetOrdersWithContext_eq] at hrun
    have h0 : toInt32 (((0 : Nat) : Int) * (withDefaultLimit opt).Limit) = 0 := by
      simp [toInt32]
    rw [← h0] at hrun
    obtain ⟨m, _, hm2, hm⟩ := ordersLoop_return_cause getPath unmarshal _ _ fuel 0 [] trace r
      hrun
    refine ⟨m, by omega, ?_⟩
    rcases hm with ⟨e, he, hr⟩ | ⟨out, hout, hs⟩
    · exact Or.inl ⟨e, he, hr⟩
    · have hsz := hsize m _ out hout
      simp only [toInt32] at hs
      exact Or.inr ⟨by omega, out, hout, by omega⟩

/-- C10, witness: limit `-5` and empty pages; limit 2 and pages of 2 orders. -/
theorem getOrders_negative_limit_never_returns_witness :
    (GetOrdersWithContext (bodiesFetcher []) decodeIDs { Limit := -5 } 4
      = ((List.range 4).map
          (fun (i : Nat) => requestPath { Limit := -5 } (toInt32 ((i : Int) * (-5)))), none))
    ∧ (GetOrdersWithContext alwaysFull decodeIDs { Limit := 2 } 4
      = ((List.range 4).map
          (fun (i : Nat) => requestPath { Limit := 2 } (toInt32 ((i : Int) * 2))), none)) :=
  ⟨(getOrders_negative_limit_never_returns (bodiesFetcher []) decodeIDs { Limit := -5 }
      (by
        intro i path out h
        have h' : (Except.ok ⟨0, []⟩ : Except Error Envelope) = .ok out := h
        cases h'
        decide)).1 (by decide) (fun _ => ⟨⟨0, []⟩, rfl⟩) 4,
    (getOrders_negative_limit_never_returns alwaysFull decodeIDs { Limit := 2 }
      (by
        intro i path out h
        have h' : (Except.ok ⟨2, [some (orderWithID 1), some (orderWithID 2)]⟩ :
          Except Error Envelope) = .ok out := h
        cases h'
        decide)).2.1
      (fun _ => ⟨⟨2, [some (orderWithID 1), some (orderWithID 2)]⟩, rfl, by decide⟩) 4⟩

/-- C10, counterexample: with limit `-1` and a never-failing fetcher whose
first page holds `2^31` orders, the function returns after one request: the
page length converted to `int32` is `-2^31`, below the limit. -/
theorem getOrders_negative_limit_counterexample :
    (({ Limit := -1 } : GetOrderOpts).Limit < 0)
      ∧ (∀ i path, ∃ out, fetchPage hugeFetcher decodeIDs i path = .ok out)
      ∧ ∀ fuel, GetOrdersWithContext hugeFetcher decodeIDs { Limit := -1 } (fuel + 1)
          = ([requestPath { Limit := -1 } 0], some ⟨some (hugePage 0), none⟩) := by
  refine ⟨by decide, fun i path => ⟨_, hugeFetcher_page i path⟩, ?_⟩
  intro fuel
  have hL : (withDefaultLimit { Limit := -1 }).Limit = -1 := by decide
  have hrun := GetOrdersWithContext_short_at hugeFetcher decodeIDs { Limit := -1 } 0
    (fuel + 1) ⟨0, hugePage 0⟩ (by intro i hi; omega) (hugeFetcher_page 0 _)
    (by
      show toInt32 ((hugePage 0).length : Int) < _
      rw [hugePage_zero_length, hL]
      decide)
    (Nat.succ_pos fuel)
  rw [hrun]
  have h0 : toInt32 (((0 : Nat) : Int) * (withDefaultLimit { Limit := -1 }).Limit) = 0 := by
    decide
  have hpage : pageAt hugeFetcher decodeIDs
      (reflectValue [] (withDefaultLimit { Limit := -1 }).fields)
      (withDefaultLimit { Limit := -1 }).Limit 0 = hugePage 0 := by
    simp only [pageAt, hugeFetcher_page]
  simp only [pathsFrom, concatPages, hpage, List.append_nil, h0]
  rfl

theorem ordersLoop_one (getPath : Fetcher) (unmarshal : Body → Except Error Envelope)
    (limit : Int) (q : Values) (n : Nat) (offset : Int) (orders : List (Option Order)) :
    (ordersLoop getPath unmarshal limit 1 q n offset orders).1 = [ordersPath q offset] := by
  cases hp : fetchPage getPath unmarshal n (ordersPath q offset) with
  | error err => rw [ordersLoop_error getPath unmarshal limit 0 q n offset orders err hp]
  | ok out =>
    by_cases hs : toInt32 out.Orders.length < limit
    · rw [ordersLoop_short getPath unmarshal limit 0 q n offset orders out hp hs]
    · rw [ordersLoop_full getPath unmarshal limit 0 q n offset orders out hp hs]
      rfl

/-- C5, the code at the all-zero criteria: every field except the empty
`TokenIds` is serialised, under its Go field name, next to `offset`; the
first request carries nine parameters. -/
theorem getOrders_zero_criteria_path (getPath : Fetcher)
    (unmarshal : Body → Except Error Envelope) :
    (GetOrdersWithContext getPath unmarshal {} 1).1
        = ["/wyvern/v1/orders?AssetContractAddress=&Limit=100&ListedAfter=&ListedBefore="
            ++ "&Offset=0&OrderBy=&OrderDirection=&TokenId=&offset=0"]
      ∧ (Values.Set (reflectValue [] (withDefaultLimit {}).fields) "offset" "0").map Prod.fst
        = ["AssetContractAddress", "ListedAfter", "ListedBefore", "OrderBy", "OrderDirection",
            "TokenId", "Limit", "Offset", "offset"] := by
  constructor
  · rw [GetOrdersWithContext_eq, ordersLoop_one]
    decide
  · decide

theorem GetOffersWithContext_trace (getPath : Fetcher)
    (unmarshal : Body → Except Error GetOfferResponse) (opt : GetOfferOpts) :
    (GetOffersWithContext getPath unmarshal opt).1
      = ["/api/v1/asset/" ++ opt.AssetContractAddress ++ "/" ++ opt.TokenId ++ "/offers"] := by
  simp only [GetOffersWithContext]
  split
  · split_ifs <;> rfl
  · split <;> split_ifs <;> rfl

theorem GetListingWithContext_trace (getPath : Fetcher)
    (unmarshal : Body → Except Error GetListingResponse) (opt : GetListingOpts) :
    (GetListingWithContext getPath unmarshal opt).1
      = ["/api/v1/asset/" ++ opt.AssetContractAddress ++ "/" ++ opt.TokenId ++ "/listings"] := by
  simp only [GetListingWithContext]
  split
  · split_ifs <;> rfl
  · split <;> split_ifs <;> rfl

/-- C6, the code at the options of the repository's test: the request path
of the listings lookup, and of the offers lookup, carries no limit. -/
theorem getListing_path_has_no_limit (getPath : Fetcher)
    (unmarshalOffers : Body → Except Error GetOfferResponse)
    (unmarshalListings : Body → Except Error GetListingResponse) :
    (GetListingWithContext getPath unmarshalListings
        { AssetContractAddress := "0xbc4ca0eda7647a8ab7c2061c2e118a18a936f13d",
          TokenId := "8520", Limit := 20 }).1
        = ["/api/v1/asset/0xbc4ca0eda7647a8ab7c2061c2e118a18a936f13d/8520/listings"]
      ∧ (GetOffersWithContext getPath unmarshalOffers
        { AssetContractAddress := "0xbc4ca0eda7647a8ab7c2061c2e118a18a936f13d",
          TokenId := "8520", Limit := 20 }).1
        = ["/api/v1/asset/0xbc4ca0eda7647a8ab7c2061c2e118a18a936f13d/8520/offers"] := by
  rw [GetListingWithContext_trace, GetOffersWithContext_trace]
  constructor <;> decide

/-- C7: whatever the options and the response, `GetOffersWithContext` and
`GetListingWithContext` each call the page fetcher exactly once, with the path
`/api/v1/asset/<AssetContractAddress>/<TokenId>/offers`, respectively
`/listings`. -/
theorem single_shot_one_request (getPath : Fetcher)
    (unmarshalOffers : Body → Except Error GetOfferResponse)
    (unmarshalListings : Body → Except Error GetListingResponse)
    (offerOpt : GetOfferOpts) (listingOpt : GetListingOpts) :
    (GetOffersWithContext getPath unmarshalOffers offerOpt).1
        = ["/api/v1/asset/" ++ offerOpt.AssetContractAddress ++ "/" ++ offerOpt.TokenId
            ++ "/offers"]
      ∧ (GetListingWithContext getPath unmarshalListings listingOpt).1
        = ["/api/v1/asset/" ++ listingOpt.AssetContractAddress ++ "/" ++ listingOpt.TokenId
            ++ "/listings"] :=
  ⟨GetOffersWithContext_trace getPath unmarshalOffers offerOpt,
    GetListingWithContext_trace getPath unmarshalListings listingOpt⟩

/-! ## Evaluation checks of the library embedding -/

theorem QueryEscape_sample : QueryEscape "a b&c=é~" = "a+b%26c%3D%C3%A9~" := by decide

theorem Encode_sample :
    Values.Encode (Values.Add (Values.Add [] "b" "1") "a" "x y") = "a=x+y&b=1" := by decide

theorem bodies237_total :
    ((List.range 3).flatMap (bodiesPage bodies237)).length = 237 := by rfl

end Opensea
